import Mathlib

/-!
Verification of the mindmap graph-editing engine (`src/mindmap.js`).

The JavaScript class `MindMapCreator` keeps its model state in plain fields
(`nodes`, `connections`, `selectedNodes`, `selectedConnections`,
`currentTool`, `isConnecting`, `connectionStart`, `isDragging`, `dragOffset`,
`nodeCounter`, `connectionCounter`, `zoom`, `pan`).  We embed that state as a
Lean structure and each model-mutating method as a pure function on it.
DOM-only fields (`canvas`, `tempConnection`, rendered SVG elements) and
DOM-only statements inside the methods are not part of the model and are
omitted; every statement of a method that touches a model field is embedded.

JavaScript `Map` objects preserve insertion order; `set` on an existing key
replaces the value in place, otherwise appends; `delete` removes the single
entry with that key; `get` returns the value or `undefined`.  We embed a
`Map` as an association list `List (String × α)` with those operations.
JavaScript `Set` objects are embedded as duplicate-free lists in insertion
order.  JavaScript numbers are embedded as rationals (`ℚ`); all the numeric
literals of the source (1.4, 1.2, 0.9, 1.1, 0.7, 0.1, 3, 60, 8, 4, 16, 10)
are exact in `ℚ`.
-/

/-- Embedding of JavaScript `Map.prototype.get`: the value stored at `k`. -/
def jsGet {α : Type} (m : List (String × α)) (k : String) : Option α :=
  (m.find? (fun p => p.1 = k)).map (fun p => p.2)

/-- Embedding of JavaScript `Map.prototype.set`: replace in place when the
key is present, otherwise append the new entry. -/
def jsSet {α : Type} (m : List (String × α)) (k : String) (v : α) :
    List (String × α) :=
  if (m.find? (fun p => p.1 = k)).isSome then
    m.map (fun p => if p.1 = k then (k, v) else p)
  else
    m ++ [(k, v)]

/-- Embedding of JavaScript `Map.prototype.delete`: remove the entry with
key `k`. -/
def jsDelete {α : Type} (m : List (String × α)) (k : String) :
    List (String × α) :=
  m.filter (fun p => p.1 ≠ k)

/-- A node record, as built by `createNode`: `{id, x, y, text, color,
textColor, shape, size, radius}` (the source keeps `radius = size` for
backwards compatibility). -/
structure Node where
  id : String
  x : ℚ
  y : ℚ
  text : String
  color : String
  textColor : String
  shape : String
  size : ℚ
  radius : ℚ
  deriving Repr, DecidableEq

/-- A connection record, as built by `createConnection`:
`{id, start, end}` (the field `end` is a Lean keyword, embedded as
`endId`; `start` is embedded as `startId` for symmetry). -/
structure Conn where
  id : String
  startId : String
  endId : String
  deriving Repr, DecidableEq

/-- The model-state fields of class `MindMapCreator`, exactly the fields
assigned in its constructor (DOM handles omitted). -/
structure MMState where
  nodes : List (String × Node)
  connections : List (String × Conn)
  selectedNodes : List String
  selectedConnections : List String
  currentTool : String
  isConnecting : Bool
  connectionStart : Option String
  isDragging : Bool
  dragOffset : ℚ × ℚ
  nodeCounter : Nat
  connectionCounter : Nat
  zoom : ℚ
  pan : ℚ × ℚ
  deriving Repr, DecidableEq

/-- The constructor state of `MindMapCreator`: empty maps and sets, tool
`select`, no connection in progress, counters 0, zoom 1, pan `{x:0,y:0}`. -/
def initialState : MMState where
  nodes := []
  connections := []
  selectedNodes := []
  selectedConnections := []
  currentTool := "select"
  isConnecting := false
  connectionStart := none
  isDragging := false
  dragOffset := (0, 0)
  nodeCounter := 0
  connectionCounter := 0
  zoom := 1
  pan := (0, 0)

/-- Embedding of JavaScript `String.prototype.split(' ')` over the
character list of the string: fragments between single space characters,
keeping empty fragments, so that `"a  b"` splits into `["a", "", "b"]` and
`""` into `[""]`, exactly as in JavaScript. -/
def splitOnSpaceAux : List Char → List Char → List String
  | [], acc => [String.mk acc.reverse]
  | c :: cs, acc =>
    if c = ' ' then String.mk acc.reverse :: splitOnSpaceAux cs []
    else splitOnSpaceAux cs (c :: acc)

/-- Split a string on the single space character, JavaScript style. -/
def splitOnSpace (s : String) : List String := splitOnSpaceAux s.data []

/-- Splitting on every whitespace character (used only by the definition
modelled from the spec's words, for comparison). -/
def splitOnWhitespaceAux : List Char → List Char → List String
  | [], acc => [String.mk acc.reverse]
  | c :: cs, acc =>
    if c.isWhitespace then String.mk acc.reverse :: splitOnWhitespaceAux cs []
    else splitOnWhitespaceAux cs (c :: acc)

/-- Split a string on whitespace characters. -/
def splitOnWhitespace (s : String) : List String :=
  splitOnWhitespaceAux s.data []

/-- Embedding of JavaScript `String.prototype.trim()`: strip leading and
trailing whitespace. -/
def jsTrim (s : String) : String :=
  String.mk (((s.data.dropWhile Char.isWhitespace).reverse.dropWhile
    Char.isWhitespace).reverse)

/-- The dynamic-size block that `createNode`, `saveNodeEdit` and
`saveMultipleNodeEdit` each inline verbatim: split the text on the space
character, take the longest word length and the word count,
`baseSize = max(60, longestWord*8 + totalWords*4)`, and multiply by 1.4
for circles.  The split is the JavaScript `text.split(' ')`. -/
def computeNodeSize (text : String) (shape : String) : ℚ :=
  let words := splitOnSpace text
  let longestWord : Nat := (words.map String.length).foldl max 0
  let totalWords : Nat := words.length
  let baseSize : ℚ := max 60 ((longestWord : ℚ) * 8 + (totalWords : ℚ) * 4)
  if shape = "circle" then baseSize * (7 / 5) else baseSize

/-- Embedding of `createNode(x, y, text, color, textColor, shape)`:
assigns `id = "node_" + ++nodeCounter`, computes the size, stores the node
and returns its id (rendering statements omitted). -/
def createNode (st : MMState) (x y : ℚ)
    (text color textColor shape : String) : String × MMState :=
  let nodeCounter := st.nodeCounter + 1
  let nodeId := "node_" ++ Nat.repr nodeCounter
  let size := computeNodeSize text shape
  let node : Node :=
    { id := nodeId, x := x, y := y, text := text, color := color
      textColor := textColor, shape := shape, size := size, radius := size }
  (nodeId, { st with nodeCounter := nodeCounter
                     nodes := jsSet st.nodes nodeId node })

/-- Embedding of `createConnection(startNodeId, endNodeId)`: assigns
`id = "connection_" + ++connectionCounter`, stores the connection and
returns its id.  The source performs no existence check on either
endpoint. -/
def createConnection (st : MMState) (startNodeId endNodeId : String) :
    String × MMState :=
  let connectionCounter := st.connectionCounter + 1
  let connectionId := "connection_" ++ Nat.repr connectionCounter
  let connection : Conn :=
    { id := connectionId, startId := startNodeId, endId := endNodeId }
  (connectionId, { st with connectionCounter := connectionCounter
                           connections :=
                             jsSet st.connections connectionId connection })

/-- Embedding of `deleteConnection(connectionId)`. -/
def deleteConnection (st : MMState) (connectionId : String) : MMState :=
  { st with connections := jsDelete st.connections connectionId }

/-- Embedding of `deleteNode(nodeId)`: collect the ids of every connection
whose `start` or `end` equals `nodeId`, delete each of them, then delete
the node. -/
def deleteNode (st : MMState) (nodeId : String) : MMState :=
  let connectionsToDelete :=
    (st.connections.filter
      (fun p => p.2.startId = nodeId ∨ p.2.endId = nodeId)).map
      (fun p => p.1)
  let st1 := connectionsToDelete.foldl
    (fun s connectionId => deleteConnection s connectionId) st
  { st1 with nodes := jsDelete st1.nodes nodeId }

/-- Embedding of `moveNode(nodeId, x, y)`: a no-op when the id is absent,
otherwise overwrite the node's `x` and `y` (the remaining statements of the
method only update SVG attributes). -/
def moveNode (st : MMState) (nodeId : String) (x y : ℚ) : MMState :=
  match jsGet st.nodes nodeId with
  | none => st
  | some node =>
      { st with nodes := jsSet st.nodes nodeId { node with x := x, y := y } }

/-- The invariant named by the spec: every connection's endpoints exist in
the node set. -/
def edgeIntegrity (st : MMState) : Prop :=
  ∀ p ∈ st.connections,
    (jsGet st.nodes p.2.startId).isSome ∧ (jsGet st.nodes p.2.endId).isSome

instance edgeIntegrityDecidable (st : MMState) : Decidable (edgeIntegrity st) :=
  List.decidableBAll _ st.connections

/-- Embedding of `clearSelection()`: empty both selection sets (the visual
`updateNodeSelection` calls only touch CSS classes). -/
def clearSelection (st : MMState) : MMState :=
  { st with selectedNodes := [], selectedConnections := [] }

/-- Embedding of `selectNode(nodeId)`: clear all selections, then add the
node id. -/
def selectNode (st : MMState) (nodeId : String) : MMState :=
  let st1 := clearSelection st
  { st1 with selectedNodes := st1.selectedNodes ++ [nodeId] }

/-- Embedding of `toggleNodeSelection(nodeId)`: remove the id when present,
otherwise add it, without clearing others. -/
def toggleNodeSelection (st : MMState) (nodeId : String) : MMState :=
  if nodeId ∈ st.selectedNodes then
    { st with selectedNodes := st.selectedNodes.filter (fun k => k ≠ nodeId) }
  else
    { st with selectedNodes := st.selectedNodes ++ [nodeId] }

/-- Embedding of `selectConnection(connectionId)`. -/
def selectConnection (st : MMState) (connectionId : String) : MMState :=
  let st1 := clearSelection st
  { st1 with selectedConnections := st1.selectedConnections ++ [connectionId] }

/-- Embedding of `startConnection(nodeId)`: set `isConnecting`, remember
`connectionStart`, and visually select the node. -/
def startConnection (st : MMState) (nodeId : String) : MMState :=
  selectNode
    { st with isConnecting := true, connectionStart := some nodeId } nodeId

/-- Embedding of `completeConnection(nodeId)`: create the connection when a
start node is remembered and differs from `nodeId`, then leave the
connecting state (the temporary preview line is DOM-only). -/
def completeConnection (st : MMState) (nodeId : String) : MMState :=
  let st1 :=
    match st.connectionStart with
    | some s => if s ≠ nodeId then (createConnection st s nodeId).2 else st
    | none => st
  { st1 with isConnecting := false, connectionStart := none }

/-- Embedding of `handleNodeClick(e, nodeId)`: dispatch on the current tool;
with the connection tool, start a connection when none is in progress,
complete it when the clicked node differs from `connectionStart`, and do
nothing otherwise; with the select tool, toggle on Ctrl/Meta-click and
select-only on a plain click. -/
def handleNodeClick (st : MMState) (ctrlKey : Bool) (nodeId : String) :
    MMState :=
  if st.currentTool = "connection" then
    if ¬ st.isConnecting then
      startConnection st nodeId
    else if st.connectionStart ≠ some nodeId then
      completeConnection st nodeId
    else
      st
  else if st.currentTool = "select" then
    if ctrlKey then toggleNodeSelection st nodeId else selectNode st nodeId
  else
    st

/-- Embedding of `zoomIn()`: `zoom = Math.min(3, zoom * 1.2)`. -/
def zoomIn (st : MMState) : MMState :=
  { st with zoom := min 3 (st.zoom * (6 / 5)) }

/-- Embedding of `zoomOut()`: `zoom = Math.max(0.1, zoom / 1.2)`. -/
def zoomOut (st : MMState) : MMState :=
  { st with zoom := max (1 / 10) (st.zoom / (6 / 5)) }

/-- Embedding of `resetZoom()`: `zoom = 1`, `pan = {x:0, y:0}`. -/
def resetZoom (st : MMState) : MMState :=
  { st with zoom := 1, pan := (0, 0) }

/-- Embedding of `handleCanvasWheel(e)`: multiply the zoom by 0.9 when
`deltaY > 0` and by 1.1 otherwise, then clamp to `[0.1, 3]`. -/
def handleCanvasWheel (st : MMState) (deltaY : ℚ) : MMState :=
  let delta : ℚ := if deltaY > 0 then 9 / 10 else 11 / 10
  let z1 := st.zoom * delta
  { st with zoom := max (1 / 10) (min 3 z1) }

/-- One user action on the view transform, for stating the zoom-range
invariant over arbitrary interaction sequences. -/
inductive ZoomOp where
  | zoomInBtn : ZoomOp
  | zoomOutBtn : ZoomOp
  | wheel : ℚ → ZoomOp
  | reset : ZoomOp
  deriving Repr, DecidableEq

/-- Apply one `ZoomOp` through the corresponding source method. -/
def applyZoomOp (st : MMState) : ZoomOp → MMState
  | ZoomOp.zoomInBtn => zoomIn st
  | ZoomOp.zoomOutBtn => zoomOut st
  | ZoomOp.wheel deltaY => handleCanvasWheel st deltaY
  | ZoomOp.reset => resetZoom st

/-- Apply a finite sequence of zoom operations in order. -/
def applyZoomOps (st : MMState) (ops : List ZoomOp) : MMState :=
  ops.foldl applyZoomOp st

/-- The per-node update of `saveMultipleNodeEdit`: always overwrite `color`
and `textColor`, overwrite `shape` only when a shape was chosen (truthy
`selectedShape`), then recompute the size from the node's own `text` and
its (possibly new) `shape`. -/
def updateNodeBatch (newColor newTextColor : String)
    (newShape : Option String) (node : Node) : Node :=
  let shape := match newShape with
    | some s => s
    | none => node.shape
  let size := computeNodeSize node.text shape
  { node with color := newColor, textColor := newTextColor, shape := shape
              size := size, radius := size }

/-- The body of the `forEach` loop of `saveMultipleNodeEdit`: skip an id
that is absent from the node map, otherwise store the updated node. -/
def batchEditStep (newColor newTextColor : String) (newShape : Option String)
    (s : MMState) (nodeId : String) : MMState :=
  match jsGet s.nodes nodeId with
  | none => s
  | some node =>
      let updated := updateNodeBatch newColor newTextColor newShape node
      { s with nodes := jsSet s.nodes nodeId updated }

/-- Embedding of `saveMultipleNodeEdit()`: for each id in
`currentEditingNodes` (passed here as `editingNodes`), skip it when absent
from the node map, otherwise apply the shared fields and recompute the
size; the node's text is never written. -/
def saveMultipleNodeEdit (st : MMState) (editingNodes : List String)
    (newColor newTextColor : String) (newShape : Option String) : MMState :=
  editingNodes.foldl (batchEditStep newColor newTextColor newShape) st

/-- The per-line character limit computed by `renderWrappedText`:
`fontSize = Math.max(10, Math.min(16, size/3))`, a shape-dependent
`maxWidth` (rectangle `size*1.6*0.9`, square `size*0.9`, default circle
`size*0.7`), `avgCharWidth = fontSize*0.5`, and
`maxCharsPerLine = Math.floor(maxWidth / avgCharWidth)`. -/
def maxCharsPerLine (size : ℚ) (shape : String) : ℤ :=
  let fontSize : ℚ := max 10 (min 16 (size / 3))
  let maxWidth : ℚ :=
    if shape = "rectangle" then size * (8 / 5) * (9 / 10)
    else if shape = "square" then size * (9 / 10)
    else size * (7 / 10)
  let avgCharWidth := fontSize * (1 / 2)
  ⌊maxWidth / avgCharWidth⌋

/-- The greedy packing loop of `renderWrappedText`: `currentLine` starts
empty; each word extends the current line when the extended line fits,
otherwise the current line (when non-empty, i.e. truthy) is pushed and the
word starts a new line, and a word arriving at an empty current line that
does not fit is pushed alone, untruncated; a non-empty final line is
pushed. -/
def wrapLoop (limit : ℤ) : List String → String → List String
  | [], currentLine => if currentLine ≠ "" then [currentLine] else []
  | word :: rest, currentLine =>
    let testLine :=
      if currentLine ≠ "" then currentLine ++ " " ++ word else word
    if (testLine.length : ℤ) ≤ limit then
      wrapLoop limit rest testLine
    else if currentLine ≠ "" then
      currentLine :: wrapLoop limit rest word
    else
      word :: wrapLoop limit rest ""

/-- The line-computation part of `renderWrappedText(textElement, text,
size, textColor, shape)`: split the text on the space character and pack
the words greedily into lines of at most `maxCharsPerLine` characters (the
remaining statements of the method only build SVG `tspan` elements). -/
def renderWrappedTextLines (text : String) (size : ℚ) (shape : String) :
    List String :=
  wrapLoop (maxCharsPerLine size shape) (splitOnSpace text) ""

/-- Joining a list of lines (or of words) with single spaces, the
comparison form used by the spec's no-dropped-characters property. -/
def joinWords : List String → String
  | [] => ""
  | [w] => w
  | w :: rest => w ++ " " ++ joinWords rest

/-- A persisted snapshot, as built by `saveMindMap`: `{title, nodes,
connections, nodeCounter, connectionCounter, savedAt}` where `nodes` and
`connections` are the `Array.from(map.entries())` entry lists.  The
`localStorage` JSON round trip preserves every field of these records. -/
structure SaveRecord where
  title : String
  nodes : List (String × Node)
  connections : List (String × Conn)
  nodeCounter : Nat
  connectionCounter : Nat
  savedAt : String
  deriving Repr, DecidableEq

/-- Embedding of `clearAll()`: behind a `confirm()` dialog; when confirmed,
empty both maps, clear the selection and reset both counters. -/
def clearAll (st : MMState) (confirmed : Bool) : MMState :=
  if confirmed then
    { st with nodes := [], connections := [], selectedNodes := []
              selectedConnections := [], nodeCounter := 0
              connectionCounter := 0 }
  else
    st

/-- Embedding of `saveMindMap()`: trim the entered file name, refuse an
empty one, build the snapshot record and store it under the file name in
the `mindmaps` store (a JavaScript object, embedded with the same
replace-or-append semantics as a `Map`). -/
def saveMindMap (st : MMState) (rawFileName savedAt : String)
    (store : List (String × SaveRecord)) :
    Option (List (String × SaveRecord)) :=
  let fileName := jsTrim rawFileName
  if fileName = "" then none
  else
    let mindmapData : SaveRecord :=
      { title := fileName, nodes := st.nodes, connections := st.connections
        nodeCounter := st.nodeCounter
        connectionCounter := st.connectionCounter, savedAt := savedAt }
    some (jsSet store fileName mindmapData)

/-- Embedding of `loadMindMap()`: look the selected file name up in the
store, refuse a missing one, run `clearAll()` (whose `confirm()` answer is
the `confirmed` argument), then replace the maps wholesale and restore both
counters (`mindmapData.nodeCounter || 0` — the record always carries the
saved counter, and `0 || 0` is `0`). -/
def loadMindMap (fileName : String) (store : List (String × SaveRecord))
    (st : MMState) (confirmed : Bool) : Option MMState :=
  match jsGet store fileName with
  | none => none
  | some mindmapData =>
      let st1 := clearAll st confirmed
      some { st1 with nodes := mindmapData.nodes
                      connections := mindmapData.connections
                      nodeCounter := mindmapData.nodeCounter
                      connectionCounter := mindmapData.connectionCounter }

/-- Modelled from the spec for comparison with `computeNodeSize`: the spec
defines the words of the text by splitting "on whitespace", where the
source splits on the single space character only. -/
def specNodeSize (text : String) (shape : String) : ℚ :=
  let words := splitOnWhitespace text
  let longestWord : Nat := (words.map String.length).foldl max 0
  let wordCount : Nat := words.length
  let baseSize : ℚ := max 60 ((longestWord : ℚ) * 8 + (wordCount : ℚ) * 4)
  if shape = "circle" then baseSize * (7 / 5) else baseSize

/-- A state with the single node `node_1`, reached from the constructor
state by one `createNode`; used to exhibit concrete behaviors. -/
def oneNodeState : MMState :=
  (createNode initialState 0 0 "A" "#4A90E2" "#FFFFFF" "circle").2

/-- A state holding a connection whose two endpoints never existed,
reached from `oneNodeState` by `createConnection("ghostA", "ghostB")` —
the model accepts it because `createConnection` checks nothing. -/
def danglingState : MMState :=
  (createConnection oneNodeState "ghostA" "ghostB").2

/-- A state with nodes `node_1`, `node_2` and the connection `connection_1`
between them, reached from the constructor state by two `createNode` calls
and one `createConnection`. -/
def twoNodeConnectedState : MMState :=
  (createConnection
    (createNode
      (createNode initialState 0 0 "A" "#4A90E2" "#FFFFFF" "circle").2
      1 1 "B" "#7ED321" "#FFFFFF" "square").2
    "node_1" "node_2").2

/-- A state in which a connection from `node_1` is in progress, reached by
switching to the connection tool and clicking `node_1`. -/
def connectingState : MMState :=
  startConnection { oneNodeState with currentTool := "connection" } "node_1"

/-! ### Association-list map lemmas -/

theorem find?_key_map_replace {α : Type} (m : List (String × α)) (k : String) (v : α) :
    (m.map (fun p => if p.1 = k then (k, v) else p)).find?
        (fun p => decide (p.1 = k)) =
      (m.find? (fun p => decide (p.1 = k))).map (fun _ => (k, v)) := by
  induction m with
  | nil => rfl
  | cons hd tl ih =>
    by_cases hk : hd.1 = k
    · rw [List.map_cons, if_pos hk,
        List.find?_cons_of_pos _ (by simp),
        List.find?_cons_of_pos _ (by simp [hk])]
      rfl
    · rw [List.map_cons, if_neg hk,
        List.find?_cons_of_neg _ (by simp [hk]),
        List.find?_cons_of_neg _ (by simp [hk])]
      exact ih

theorem find?_ne_map_replace {α : Type} (m : List (String × α)) (k k' : String)
    (v : α) (h : k' ≠ k) :
    (m.map (fun p => if p.1 = k then (k, v) else p)).find?
        (fun p => decide (p.1 = k')) =
      m.find? (fun p => decide (p.1 = k')) := by
  induction m with
  | nil => rfl
  | cons hd tl ih =>
    by_cases hk : hd.1 = k
    · have h1 : ¬ ((k, v).1 = k') := fun hh => h (hh.symm)
      have h2 : ¬ (hd.1 = k') := by rw [hk]; exact fun hh => h (hh.symm)
      rw [List.map_cons, if_pos hk,
        List.find?_cons_of_neg _ (by simp [h1]),
        List.find?_cons_of_neg _ (by simp [h2])]
      exact ih
    · by_cases hk' : hd.1 = k'
      · rw [List.map_cons, if_neg hk,
          List.find?_cons_of_pos _ (by simp [hk']),
          List.find?_cons_of_pos _ (by simp [hk'])]
      · rw [List.map_cons, if_neg hk,
          List.find?_cons_of_neg _ (by simp [hk']),
          List.find?_cons_of_neg _ (by simp [hk'])]
        exact ih

theorem jsGet_jsSet_self {α : Type} (m : List (String × α)) (k : String) (v : α) :
    jsGet (jsSet m k v) k = some v := by
  unfold jsGet jsSet
  split
  case isTrue h =>
    rw [find?_key_map_replace]
    obtain ⟨p, hp⟩ := Option.isSome_iff_exists.mp h
    rw [hp]
    rfl
  case isFalse h =>
    have hnone : m.find? (fun p => decide (p.1 = k)) = none :=
      Option.not_isSome_iff_eq_none.mp h
    rw [List.find?_append, hnone, Option.none_or,
      List.find?_cons_of_pos _ (by simp)]
    rfl

theorem jsGet_jsSet_ne {α : Type} (m : List (String × α)) (k k' : String) (v : α)
    (h : k' ≠ k) : jsGet (jsSet m k v) k' = jsGet m k' := by
  unfold jsGet jsSet
  split
  · rw [find?_ne_map_replace _ _ _ _ h]
  · have hlast : ([(k, v)] : List (String × α)).find?
        (fun p => decide (p.1 = k')) = none := by
      rw [List.find?_cons_of_neg _ (by simp; exact fun hh => h (Eq.symm hh))]
      rfl
    rw [List.find?_append, hlast, Option.or_none]

theorem jsGet_jsDelete {α : Type} (m : List (String × α)) (k k' : String) :
    jsGet (jsDelete m k) k' = if k' = k then none else jsGet m k' := by
  unfold jsGet jsDelete
  induction m with
  | nil => split <;> rfl
  | cons hd tl ih =>
    by_cases hk : hd.1 = k
    · rw [List.filter_cons_of_neg (by simp [hk])]
      by_cases hkk : k' = k
      · rw [if_pos hkk] at ih ⊢
        exact ih
      · have h2 : ¬ (hd.1 = k') := by rw [hk]; exact fun hh => hkk (hh.symm)
        rw [if_neg hkk] at ih ⊢
        rw [List.find?_cons_of_neg _ (by simp [h2])]
        exact ih
    · rw [List.filter_cons_of_pos (by simp [hk])]
      by_cases hk' : hd.1 = k'
      · have hkk : ¬ (k' = k) := by rw [← hk']; exact hk
        rw [if_neg hkk]
        rw [List.find?_cons_of_pos _ (by simp [hk']),
          List.find?_cons_of_pos _ (by simp [hk'])]
      · by_cases hkk : k' = k
        · rw [if_pos hkk] at ih ⊢
          rw [List.find?_cons_of_neg _ (by simp [hk'])]
          exact ih
        · rw [if_neg hkk] at ih ⊢
          rw [List.find?_cons_of_neg _ (by simp [hk']),
            List.find?_cons_of_neg _ (by simp [hk'])]
          exact ih

/-! ### Injectivity of the decimal id suffix

The source builds ids by string interpolation of the incremented counter
(`node_${++this.nodeCounter}`), embedded as `"node_" ++ Nat.repr counter`.
The freshness of generated ids rests on `Nat.repr` being injective, proved
here through `Nat.digits`. -/

theorem toDigitsCore_eq_digits (fuel : Nat) :
    ∀ (n : Nat) (acc : List Char), n < fuel →
      Nat.toDigitsCore 10 fuel n acc =
        (if n = 0 then ['0']
         else ((Nat.digits 10 n).map Nat.digitChar).reverse) ++ acc := by
  induction fuel with
  | zero => intro n acc h; exact absurd h (Nat.not_lt_zero n)
  | succ fuel ih =>
    intro n acc h
    by_cases hn : n = 0
    · subst hn
      simp [Nat.toDigitsCore]
      decide
    · by_cases hdiv : n / 10 = 0
      · have hdigits : Nat.digits 10 n = [n % 10] := by
          rw [Nat.digits_def' (by norm_num) (Nat.pos_of_ne_zero hn), hdiv,
            Nat.digits_zero]
        simp [Nat.toDigitsCore, hdiv, hn, hdigits]
      · have hlt : n / 10 < fuel := by
          have h1 : n / 10 < n := Nat.div_lt_self (Nat.pos_of_ne_zero hn)
            (by norm_num)
          omega
        have hdigits : Nat.digits 10 n = n % 10 :: Nat.digits 10 (n / 10) := by
          exact Nat.digits_def' (by norm_num) (Nat.pos_of_ne_zero hn)
        have step : Nat.toDigitsCore 10 (fuel + 1) n acc =
            Nat.toDigitsCore 10 fuel (n / 10)
              (Nat.digitChar (n % 10) :: acc) := by
          simp [Nat.toDigitsCore, hdiv]
        rw [step, ih (n / 10) (Nat.digitChar (n % 10) :: acc) hlt,
          if_neg hdiv, hdigits, if_neg hn]
        simp [List.append_assoc]

theorem repr_eq_digits (n : Nat) :
    Nat.repr n =
      ((if n = 0 then ['0']
        else ((Nat.digits 10 n).map Nat.digitChar).reverse)).asString := by
  show (Nat.toDigits 10 n).asString = _
  rw [Nat.toDigits, toDigitsCore_eq_digits (n + 1) n [] (Nat.lt_succ_self n),
    List.append_nil]

theorem digitChar_injOn :
    ∀ a : Nat, a < 10 → ∀ b : Nat, b < 10 →
      Nat.digitChar a = Nat.digitChar b → a = b := by decide

theorem map_digitChar_injOn :
    ∀ (l1 l2 : List Nat), (∀ d ∈ l1, d < 10) → (∀ d ∈ l2, d < 10) →
      l1.map Nat.digitChar = l2.map Nat.digitChar → l1 = l2 := by
  intro l1
  induction l1 with
  | nil =>
    intro l2 _ _ hmap
    cases l2 with
    | nil => rfl
    | cons b t => simp at hmap
  | cons a t ih =>
    intro l2 h1 h2 hmap
    cases l2 with
    | nil => simp at hmap
    | cons b t2 =>
      simp only [List.map_cons, List.cons.injEq] at hmap
      have hab : a = b :=
        digitChar_injOn a (h1 a (List.mem_cons_self a t)) b
          (h2 b (List.mem_cons_self b t2)) hmap.1
      have ht : t = t2 :=
        ih t2 (fun d hd => h1 d (List.mem_cons_of_mem a hd))
          (fun d hd => h2 d (List.mem_cons_of_mem b hd)) hmap.2
      rw [hab, ht]

theorem nat_repr_injective : Function.Injective Nat.repr := by
  intro m n h
  rw [repr_eq_digits, repr_eq_digits] at h
  have hdata : (if m = 0 then ['0']
      else ((Nat.digits 10 m).map Nat.digitChar).reverse) =
      (if n = 0 then ['0']
      else ((Nat.digits 10 n).map Nat.digitChar).reverse) :=
    congrArg String.data h
  have key : ∀ k : Nat, k ≠ 0 →
      ((Nat.digits 10 k).map Nat.digitChar).reverse = ['0'] → False := by
    intro k hk hrev
    have hmap : (Nat.digits 10 k).map Nat.digitChar = ['0'] := by
      have := congrArg List.reverse hrev
      simpa using this
    cases hd : Nat.digits 10 k with
    | nil => rw [hd] at hmap; simp at hmap
    | cons d rest =>
      rw [hd] at hmap
      simp only [List.map_cons, List.cons.injEq] at hmap
      have hrest : rest = [] := by
        have := hmap.2
        cases rest with
        | nil => rfl
        | cons r rr => simp at this
      have hdlt : d < 10 :=
        Nat.digits_lt_base (by norm_num) (hd ▸ List.mem_cons_self d rest)
      have hd0 : d = 0 := by
        have h0 : Nat.digitChar d = Nat.digitChar 0 := by
          simpa using hmap.1
        exact digitChar_injOn d hdlt 0 (by norm_num) h0
      have : k = 0 := by
        have hof := Nat.ofDigits_digits 10 k
        rw [hd, hrest, hd0] at hof
        simpa using hof.symm
      exact hk this
  by_cases hm : m = 0 <;> by_cases hn : n = 0
  · rw [hm, hn]
  · rw [if_pos hm, if_neg hn] at hdata
    exact absurd hdata.symm (fun hh => key n hn hh)
  · rw [if_neg hm, if_pos hn] at hdata
    exact absurd hdata (fun hh => key m hm hh)
  · rw [if_neg hm, if_neg hn] at hdata
    have hmap : (Nat.digits 10 m).map Nat.digitChar =
        (Nat.digits 10 n).map Nat.digitChar := by
      have := congrArg List.reverse hdata
      simpa using this
    have hdig : Nat.digits 10 m = Nat.digits 10 n :=
      map_digitChar_injOn _ _
        (fun d hd => Nat.digits_lt_base (by norm_num) hd)
        (fun d hd => Nat.digits_lt_base (by norm_num) hd) hmap
    calc m = Nat.ofDigits 10 (Nat.digits 10 m) := (Nat.ofDigits_digits 10 m).symm
      _ = Nat.ofDigits 10 (Nat.digits 10 n) := by rw [hdig]
      _ = n := Nat.ofDigits_digits 10 n

theorem tagged_id_injective (tag : String) (a b : Nat)
    (h : tag ++ Nat.repr a = tag ++ Nat.repr b) : a = b := by
  have hdata : tag.data ++ (Nat.repr a).data = tag.data ++ (Nat.repr b).data := by
    have := congrArg String.data h
    simpa using this
  have hrepr : (Nat.repr a).data = (Nat.repr b).data :=
    List.append_cancel_left hdata
  have : Nat.repr a = Nat.repr b := by
    cases ha : Nat.repr a with
    | mk la =>
      cases hb : Nat.repr b with
      | mk lb =>
        rw [ha, hb] at hrepr
        simp only at hrepr
        rw [hrepr]
  exact nat_repr_injective this
/-! ### Lemmas about the greedy wrapping loop -/

theorem append_space_length (a b : String) :
    (a ++ " " ++ b).length = a.length + 1 + b.length := by
  have h1 : (" " : String).length = 1 := rfl
  rw [String.length_append, String.length_append, h1]

theorem append_space_ne_empty (a b : String) : a ++ " " ++ b ≠ "" := by
  intro h
  have hlen := congrArg String.length h
  rw [append_space_length] at hlen
  have h0 : ("" : String).length = 0 := rfl
  rw [h0] at hlen
  omega

theorem joinWords_cons (a : String) (l : List String) :
    joinWords (a :: l) = if l = [] then a else a ++ " " ++ joinWords l := by
  cases l with
  | nil => rfl
  | cons b t => rfl

theorem wrapLoop_nil (limit : ℤ) (cur : String) :
    wrapLoop limit [] cur = if cur ≠ "" then [cur] else [] := rfl

theorem wrapLoop_cons_ne (limit : ℤ) (w : String) (rest : List String)
    (cur : String) (hcur : cur ≠ "") :
    wrapLoop limit (w :: rest) cur =
      if (((cur ++ " " ++ w).length : ℤ)) ≤ limit then
        wrapLoop limit rest (cur ++ " " ++ w)
      else
        cur :: wrapLoop limit rest w := by
  rw [wrapLoop]
  simp only [if_pos hcur]

theorem wrapLoop_cons_empty (limit : ℤ) (w : String) (rest : List String) :
    wrapLoop limit (w :: rest) "" =
      if ((w.length : ℤ)) ≤ limit then
        wrapLoop limit rest w
      else
        w :: wrapLoop limit rest "" := by
  rw [wrapLoop]
  simp

theorem wrapLoop_ne_nil (limit : ℤ) :
    ∀ (ws : List String) (cur : String), cur ≠ "" →
      wrapLoop limit ws cur ≠ [] := by
  intro ws
  induction ws with
  | nil =>
    intro cur hcur
    rw [wrapLoop_nil, if_pos hcur]
    exact List.cons_ne_nil _ _
  | cons w rest ih =>
    intro cur hcur
    rw [wrapLoop_cons_ne limit w rest cur hcur]
    by_cases hfit : (((cur ++ " " ++ w).length : ℤ)) ≤ limit
    · rw [if_pos hfit]
      exact ih (cur ++ " " ++ w) (append_space_ne_empty cur w)
    · rw [if_neg hfit]
      exact List.cons_ne_nil _ _

theorem wrapLoop_ne_nil_of_words (limit : ℤ) (ws : List String) (cur : String)
    (hne : ws ≠ []) (hws : ∀ w ∈ ws, w ≠ "") : wrapLoop limit ws cur ≠ [] := by
  cases ws with
  | nil => exact absurd rfl hne
  | cons w rest =>
    have hw : w ≠ "" := hws w (List.mem_cons_self w rest)
    by_cases hcur : cur = ""
    · subst hcur
      rw [wrapLoop_cons_empty]
      by_cases hfit : ((w.length : ℤ)) ≤ limit
      · rw [if_pos hfit]
        exact wrapLoop_ne_nil limit rest w hw
      · rw [if_neg hfit]
        exact List.cons_ne_nil _ _
    · rw [wrapLoop_cons_ne limit w rest cur hcur]
      by_cases hfit : (((cur ++ " " ++ w).length : ℤ)) ≤ limit
      · rw [if_pos hfit]
        exact wrapLoop_ne_nil limit rest _ (append_space_ne_empty cur w)
      · rw [if_neg hfit]
        exact List.cons_ne_nil _ _

theorem joinWords_wrapLoop (limit : ℤ) :
    ∀ (ws : List String) (cur : String), (∀ w ∈ ws, w ≠ "") →
      joinWords (wrapLoop limit ws cur) =
        if cur = "" then joinWords ws else joinWords (cur :: ws) := by
  intro ws
  induction ws with
  | nil =>
    intro cur _
    by_cases hcur : cur = ""
    · rw [wrapLoop_nil, if_pos hcur, if_neg (fun h => h hcur)]
    · rw [wrapLoop_nil, if_neg hcur, if_pos hcur]
  | cons w rest ih =>
    intro cur hall
    have hw : w ≠ "" := hall w (List.mem_cons_self w rest)
    have hrest : ∀ v ∈ rest, v ≠ "" :=
      fun v hv => hall v (List.mem_cons_of_mem w hv)
    by_cases hcur : cur = ""
    · subst hcur
      rw [wrapLoop_cons_empty, if_pos rfl]
      by_cases hfit : ((w.length : ℤ)) ≤ limit
      · rw [if_pos hfit, ih w hrest, if_neg hw]
      · rw [if_neg hfit]
        by_cases hr : rest = []
        · subst hr
          rw [wrapLoop_nil, if_neg (fun h => h rfl)]
        · have hL : wrapLoop limit rest "" ≠ [] :=
            wrapLoop_ne_nil_of_words limit rest "" hr hrest
          rw [joinWords_cons, if_neg hL, ih "" hrest, if_pos rfl,
            joinWords_cons w rest, if_neg hr]
    · rw [wrapLoop_cons_ne limit w rest cur hcur, if_neg hcur]
      by_cases hfit : (((cur ++ " " ++ w).length : ℤ)) ≤ limit
      · rw [if_pos hfit, ih (cur ++ " " ++ w) hrest,
          if_neg (append_space_ne_empty cur w)]
        by_cases hr : rest = []
        · subst hr
          rw [joinWords_cons _ ([] : List String), if_pos rfl,
            joinWords_cons cur [w], if_neg (List.cons_ne_nil w []),
            joinWords_cons w ([] : List String), if_pos rfl]
        · rw [joinWords_cons _ rest, if_neg hr,
            joinWords_cons cur (w :: rest), if_neg (List.cons_ne_nil w rest),
            joinWords_cons w rest, if_neg hr]
          simp only [String.append_assoc]
      · rw [if_neg hfit]
        have hL : wrapLoop limit rest w ≠ [] := wrapLoop_ne_nil limit rest w hw
        rw [joinWords_cons, if_neg hL, ih w hrest, if_neg hw,
          joinWords_cons cur (w :: rest), if_neg (List.cons_ne_nil w rest)]

theorem wrapLoop_head_of_long (limit : ℤ) (ws : List String) (cur : String)
    (hcur : cur ≠ "") (hlong : limit < (cur.length : ℤ)) :
    ∃ tail, wrapLoop limit ws cur = cur :: tail := by
  cases ws with
  | nil =>
    exact ⟨[], by rw [wrapLoop_nil, if_pos hcur]⟩
  | cons w rest =>
    have hnofit : ¬ (((cur ++ " " ++ w).length : ℤ)) ≤ limit := by
      rw [append_space_length]
      push_cast
      omega
    exact ⟨wrapLoop limit rest w,
      by rw [wrapLoop_cons_ne limit w rest cur hcur, if_neg hnofit]⟩

theorem wrapLoop_long_word_mem (limit : ℤ) :
    ∀ (ws : List String) (cur : String) (w : String), w ∈ ws → w ≠ "" →
      limit < (w.length : ℤ) → w ∈ wrapLoop limit ws cur := by
  intro ws
  induction ws with
  | nil => intro cur w hmem; exact absurd hmem (List.not_mem_nil w)
  | cons v rest ih =>
    intro cur w hmem hw hlong
    rcases List.mem_cons.mp hmem with heq | htail
    · subst heq
      by_cases hcur : cur = ""
      · subst hcur
        rw [wrapLoop_cons_empty]
        have hnofit : ¬ ((w.length : ℤ)) ≤ limit := by omega
        rw [if_neg hnofit]
        exact List.mem_cons_self w _
      · rw [wrapLoop_cons_ne limit w rest cur hcur]
        have hnofit : ¬ (((cur ++ " " ++ w).length : ℤ)) ≤ limit := by
          rw [append_space_length]
          push_cast
          omega
        rw [if_neg hnofit]
        obtain ⟨tail, htail⟩ := wrapLoop_head_of_long limit rest w hw hlong
        rw [htail]
        exact List.mem_cons_of_mem cur (List.mem_cons_self w tail)
    · by_cases hcur : cur = ""
      · subst hcur
        rw [wrapLoop_cons_empty]
        split
        · exact ih v w htail hw hlong
        · exact List.mem_cons_of_mem v (ih "" w htail hw hlong)
      · rw [wrapLoop_cons_ne limit v rest cur hcur]
        split
        · exact ih (cur ++ " " ++ v) w htail hw hlong
        · exact List.mem_cons_of_mem cur (ih v w htail hw hlong)

/-! ### Lemmas about the cascade in `deleteNode` -/

theorem foldl_deleteConnection_connections :
    ∀ (ids : List String) (st : MMState),
      (ids.foldl (fun s connectionId => deleteConnection s connectionId)
        st).connections =
      ids.foldl (fun l connectionId => jsDelete l connectionId)
        st.connections := by
  intro ids
  induction ids with
  | nil => intro st; rfl
  | cons a rest ih =>
    intro st
    rw [List.foldl_cons, List.foldl_cons]
    exact ih (deleteConnection st a)

theorem foldl_deleteConnection_nodes :
    ∀ (ids : List String) (st : MMState),
      (ids.foldl (fun s connectionId => deleteConnection s connectionId)
        st).nodes = st.nodes := by
  intro ids
  induction ids with
  | nil => intro st; rfl
  | cons a rest ih =>
    intro st
    rw [List.foldl_cons]
    exact ih (deleteConnection st a)

theorem mem_foldl_jsDelete {α : Type} :
    ∀ (ids : List String) (l : List (String × α)) (p : String × α),
      p ∈ ids.foldl (fun m connectionId => jsDelete m connectionId) l →
      p ∈ l ∧ p.1 ∉ ids := by
  intro ids
  induction ids with
  | nil =>
    intro l p hp
    exact ⟨hp, List.not_mem_nil p.1⟩
  | cons a rest ih =>
    intro l p hp
    rw [List.foldl_cons] at hp
    obtain ⟨hmem, hnot⟩ := ih (jsDelete l a) p hp
    have hfilter := List.mem_filter.mp hmem
    refine ⟨hfilter.1, ?_⟩
    intro hin
    rcases List.mem_cons.mp hin with heq | htail
    · have := hfilter.2
      simp [heq] at this
    · exact hnot htail

/-! ### Lemmas about the batch-edit fold -/

theorem saveMultipleNodeEdit_cons (st : MMState) (a : String)
    (rest : List String) (newColor newTextColor : String)
    (newShape : Option String) :
    saveMultipleNodeEdit st (a :: rest) newColor newTextColor newShape =
      saveMultipleNodeEdit (batchEditStep newColor newTextColor newShape st a)
        rest newColor newTextColor newShape := rfl

theorem batchEdit_connections (newColor newTextColor : String)
    (newShape : Option String) :
    ∀ (ids : List String) (st : MMState),
      (saveMultipleNodeEdit st ids newColor newTextColor
        newShape).connections = st.connections := by
  intro ids
  induction ids with
  | nil => intro st; rfl
  | cons a rest ih =>
    intro st
    rw [saveMultipleNodeEdit_cons,
      ih (batchEditStep newColor newTextColor newShape st a)]
    unfold batchEditStep
    cases jsGet st.nodes a <;> rfl

theorem batchEdit_get_ne (newColor newTextColor : String)
    (newShape : Option String) :
    ∀ (ids : List String) (st : MMState) (k : String), k ∉ ids →
      jsGet (saveMultipleNodeEdit st ids newColor newTextColor
        newShape).nodes k = jsGet st.nodes k := by
  intro ids
  induction ids with
  | nil => intro st k _; rfl
  | cons a rest ih =>
    intro st k hk
    have hka : k ≠ a := fun h => hk (h ▸ List.mem_cons_self a rest)
    have hkr : k ∉ rest := fun h => hk (List.mem_cons_of_mem a h)
    rw [saveMultipleNodeEdit_cons,
      ih (batchEditStep newColor newTextColor newShape st a) k hkr]
    unfold batchEditStep
    cases hget : jsGet st.nodes a with
    | none => rfl
    | some node =>
      exact jsGet_jsSet_ne st.nodes a k _ hka

theorem updateNodeBatch_idem (newColor newTextColor : String)
    (newShape : Option String) (n : Node) :
    updateNodeBatch newColor newTextColor newShape
      (updateNodeBatch newColor newTextColor newShape n) =
    updateNodeBatch newColor newTextColor newShape n := by
  cases newShape <;> rfl

theorem batchEdit_get_fixed (newColor newTextColor : String)
    (newShape : Option String) :
    ∀ (ids : List String) (st : MMState) (nid : String) (m : Node),
      jsGet st.nodes nid = some m →
      updateNodeBatch newColor newTextColor newShape m = m →
      jsGet (saveMultipleNodeEdit st ids newColor newTextColor
        newShape).nodes nid = some m := by
  intro ids
  induction ids with
  | nil => intro st nid m hget _; exact hget
  | cons a rest ih =>
    intro st nid m hget hfix
    rw [saveMultipleNodeEdit_cons]
    by_cases hka : a = nid
    · subst hka
      have hstep : jsGet (batchEditStep newColor newTextColor newShape
          st a).nodes a = some m := by
        unfold batchEditStep
        rw [hget]
        show jsGet (jsSet st.nodes a _) a = some m
        rw [jsGet_jsSet_self, hfix]
      exact ih _ a m hstep hfix
    · have hstep : jsGet (batchEditStep newColor newTextColor newShape
          st a).nodes nid = some m := by
        unfold batchEditStep
        cases hget2 : jsGet st.nodes a with
        | none => exact hget
        | some node =>
          show jsGet (jsSet st.nodes a _) nid = some m
          rw [jsGet_jsSet_ne st.nodes a nid _ (fun h => hka h.symm)]
          exact hget
      exact ih _ nid m hstep hfix

theorem batchEdit_get_mem (newColor newTextColor : String)
    (newShape : Option String) :
    ∀ (ids : List String) (st : MMState) (nid : String) (n : Node),
      nid ∈ ids → jsGet st.nodes nid = some n →
      jsGet (saveMultipleNodeEdit st ids newColor newTextColor
        newShape).nodes nid =
        some (updateNodeBatch newColor newTextColor newShape n) := by
  intro ids
  induction ids with
  | nil => intro st nid n hmem; exact absurd hmem (List.not_mem_nil nid)
  | cons a rest ih =>
    intro st nid n hmem hget
    rw [saveMultipleNodeEdit_cons]
    by_cases hka : a = nid
    · subst hka
      have hstep : jsGet (batchEditStep newColor newTextColor newShape
          st a).nodes a =
          some (updateNodeBatch newColor newTextColor newShape n) := by
        unfold batchEditStep
        rw [hget]
        show jsGet (jsSet st.nodes a _) a = _
        rw [jsGet_jsSet_self]
      exact batchEdit_get_fixed newColor newTextColor newShape rest _ a _
        hstep (updateNodeBatch_idem newColor newTextColor newShape n)
    · have hnid : nid ∈ rest := by
        rcases List.mem_cons.mp hmem with heq | htail
        · exact absurd heq.symm hka
        · exact htail
      have hstep : jsGet (batchEditStep newColor newTextColor newShape
          st a).nodes nid = some n := by
        unfold batchEditStep
        cases hget2 : jsGet st.nodes a with
        | none => exact hget
        | some node =>
          show jsGet (jsSet st.nodes a _) nid = some n
          rw [jsGet_jsSet_ne st.nodes a nid _ (fun h => hka h.symm)]
          exact hget
      exact ih _ nid n hnid hstep

/-! ### Lemmas about the zoom clamp -/

theorem applyZoomOp_bounds (op : ZoomOp) (st : MMState)
    (hlo : 1 / 10 ≤ st.zoom) (hhi : st.zoom ≤ 3) :
    1 / 10 ≤ (applyZoomOp st op).zoom ∧ (applyZoomOp st op).zoom ≤ 3 := by
  cases op with
  | zoomInBtn =>
    constructor
    · show (1 : ℚ) / 10 ≤ min 3 (st.zoom * (6 / 5))
      refine le_min (by norm_num) ?_
      nlinarith
    · exact min_le_left _ _
  | zoomOutBtn =>
    constructor
    · exact le_max_left _ _
    · show max (1 / 10) (st.zoom / (6 / 5)) ≤ 3
      refine max_le (by norm_num) ?_
      nlinarith
  | wheel deltaY =>
    constructor
    · exact le_max_left _ _
    · show max (1 / 10) (min 3 _) ≤ 3
      exact max_le (by norm_num) (min_le_left _ _)
  | reset =>
    constructor <;> norm_num [applyZoomOp, resetZoom]

theorem applyZoomOps_bounds :
    ∀ (ops : List ZoomOp) (st : MMState),
      1 / 10 ≤ st.zoom → st.zoom ≤ 3 →
      1 / 10 ≤ (applyZoomOps st ops).zoom ∧ (applyZoomOps st ops).zoom ≤ 3 := by
  intro ops
  induction ops with
  | nil => intro st hlo hhi; exact ⟨hlo, hhi⟩
  | cons op rest ih =>
    intro st hlo hhi
    have h := applyZoomOp_bounds op st hlo hhi
    show 1 / 10 ≤ (applyZoomOps (applyZoomOp st op) rest).zoom ∧ _
    exact ih (applyZoomOp st op) h.1 h.2

/-! ### Claim theorems -/

/-- C1 (counterexample): with `node_1` the only node, `"missing"` is absent
from the node set, yet `createConnection("node_1", "missing")` changes the
edge set — the connection is inserted, no `ReferenceError` occurs and the
edge set is not left unchanged as the claim demands. -/
theorem addEdge_missing_endpoint_still_inserts :
    jsGet oneNodeState.nodes "missing" = none ∧
    (createConnection oneNodeState "node_1" "missing").2.connections ≠
      oneNodeState.connections := by
  constructor
  · decide
  · decide

/-- C1 (amended): `createConnection(startId, endId)` performs no existence
check and never fails: for every state and every pair of ids, present or
absent, it assigns `id = "connection_" + ++counter`, stores the edge
`{id, start, end}` under that id, leaves every other edge and the node set
unchanged, and returns the id. -/
theorem addEdge_no_existence_check (st : MMState)
    (startNodeId endNodeId : String) :
    (createConnection st startNodeId endNodeId).1 =
      "connection_" ++ Nat.repr (st.connectionCounter + 1) ∧
    (createConnection st startNodeId endNodeId).2.connectionCounter =
      st.connectionCounter + 1 ∧
    jsGet (createConnection st startNodeId endNodeId).2.connections
        ("connection_" ++ Nat.repr (st.connectionCounter + 1)) =
      some { id := "connection_" ++ Nat.repr (st.connectionCounter + 1),
             startId := startNodeId, endId := endNodeId } ∧
    (∀ k, k ≠ "connection_" ++ Nat.repr (st.connectionCounter + 1) →
      jsGet (createConnection st startNodeId endNodeId).2.connections k =
        jsGet st.connections k) ∧
    (createConnection st startNodeId endNodeId).2.nodes = st.nodes :=
  ⟨rfl, rfl, jsGet_jsSet_self _ _ _,
    fun k hk => jsGet_jsSet_ne _ _ _ _ hk, rfl⟩

/-- C1 (witness): the amended theorem evaluated at `oneNodeState` with the
absent endpoint `"missing"`. -/
theorem addEdge_no_existence_check_witness :
    (createConnection oneNodeState "node_1" "missing").1 = "connection_1" ∧
    jsGet (createConnection oneNodeState "node_1" "missing").2.connections
      "other" = none := by
  have h := addEdge_no_existence_check oneNodeState "node_1" "missing"
  exact ⟨h.1.trans (by decide),
    (h.2.2.2.1 "other" (by decide)).trans (by decide)⟩

/-- C2 (counterexample): `danglingState` is reached by real operations
(`createNode`, then `createConnection("ghostA", "ghostB")`, which checks
nothing); after `deleteNode("node_1")` the dangling edge remains and
references nodes absent from the node set, so the unconditional
post-condition of the claim fails. -/
theorem removeNode_leaves_dangling_edge :
    ¬ edgeIntegrity (deleteNode danglingState "node_1") := by decide

/-- C2 (amended): `deleteNode(id)` removes every edge whose start or end
equals `id`, and when every edge's endpoints existed in the node set
before the call, the invariant still holds after it; the unconditional
claim fails only because `createConnection` inserts unchecked edges. -/
theorem removeNode_cascades_and_preserves_integrity (st : MMState)
    (nodeId : String) (hint : edgeIntegrity st) :
    (∀ p ∈ (deleteNode st nodeId).connections,
      p.2.startId ≠ nodeId ∧ p.2.endId ≠ nodeId) ∧
    edgeIntegrity (deleteNode st nodeId) := by
  have hconn : (deleteNode st nodeId).connections =
      ((st.connections.filter
        (fun p => p.2.startId = nodeId ∨ p.2.endId = nodeId)).map
        (fun p => p.1)).foldl
        (fun l connectionId => jsDelete l connectionId) st.connections :=
    foldl_deleteConnection_connections _ st
  have hnodes : (deleteNode st nodeId).nodes = jsDelete st.nodes nodeId := by
    show jsDelete (((st.connections.filter
        (fun p => p.2.startId = nodeId ∨ p.2.endId = nodeId)).map
        (fun p => p.1)).foldl
        (fun s connectionId => deleteConnection s connectionId) st).nodes
        nodeId = _
    rw [foldl_deleteConnection_nodes]
  have hmem : ∀ p ∈ (deleteNode st nodeId).connections,
      p ∈ st.connections ∧ p.2.startId ≠ nodeId ∧ p.2.endId ≠ nodeId := by
    intro p hp
    rw [hconn] at hp
    obtain ⟨hin, hnotk⟩ := mem_foldl_jsDelete _ _ p hp
    refine ⟨hin, ?_, ?_⟩
    · intro htouch
      exact hnotk (List.mem_map.mpr ⟨p,
        List.mem_filter.mpr ⟨hin, by simp [htouch]⟩, rfl⟩)
    · intro htouch
      exact hnotk (List.mem_map.mpr ⟨p,
        List.mem_filter.mpr ⟨hin, by simp [htouch]⟩, rfl⟩)
  constructor
  · intro p hp
    exact (hmem p hp).2
  · intro p hp
    obtain ⟨hin, hs, he⟩ := hmem p hp
    obtain ⟨hs2, he2⟩ := hint p hin
    rw [hnodes, jsGet_jsDelete, jsGet_jsDelete, if_neg hs, if_neg he]
    exact ⟨hs2, he2⟩

/-- C2 (witness): the amended theorem evaluated at the two-node state with
one real edge, deleting `node_1`. -/
theorem removeNode_cascades_witness :
    (∀ p ∈ (deleteNode twoNodeConnectedState "node_1").connections,
      p.2.startId ≠ "node_1" ∧ p.2.endId ≠ "node_1") ∧
    edgeIntegrity (deleteNode twoNodeConnectedState "node_1") :=
  removeNode_cascades_and_preserves_integrity twoNodeConnectedState "node_1"
    (by decide)

/-- C6: from any state whose zoom factor is the initial 1, every finite
sequence of `zoomIn`, `zoomOut`, `handleCanvasWheel` (any `deltaY`) and
`resetZoom` calls leaves the zoom factor within `[0.1, 3]`. -/
theorem zoom_always_in_range (ops : List ZoomOp) (st : MMState)
    (hinit : st.zoom = 1) :
    1 / 10 ≤ (applyZoomOps st ops).zoom ∧ (applyZoomOps st ops).zoom ≤ 3 :=
  applyZoomOps_bounds ops st (by rw [hinit]; norm_num)
    (by rw [hinit]; norm_num)

/-- C6 (witness): the zoom-range theorem evaluated on a concrete sequence
of wheel, button and reset operations from the constructor state. -/
theorem zoom_always_in_range_witness :
    1 / 10 ≤ (applyZoomOps initialState
      [ZoomOp.wheel 120, ZoomOp.wheel 120, ZoomOp.zoomInBtn,
       ZoomOp.reset, ZoomOp.zoomOutBtn]).zoom ∧
    (applyZoomOps initialState
      [ZoomOp.wheel 120, ZoomOp.wheel 120, ZoomOp.zoomInBtn,
       ZoomOp.reset, ZoomOp.zoomOutBtn]).zoom ≤ 3 :=
  zoom_always_in_range _ initialState rfl

/-- C7: while a connection is in progress (`isConnecting` with
`connectionStart` remembered), clicking the very node that started it
leaves the entire state unchanged — no edge is created and the connecting
flag and start are not cleared, so no self-loop can arise from the click
handler. -/
theorem connect_self_click_noop (st : MMState) (ctrlKey : Bool)
    (nodeId : String) (htool : st.currentTool = "connection")
    (hconn : st.isConnecting = true)
    (hstart : st.connectionStart = some nodeId) :
    handleNodeClick st ctrlKey nodeId = st := by
  unfold handleNodeClick
  rw [htool]
  simp [hconn, hstart]

/-- C7 (witness): the no-op theorem evaluated at the concrete state where a
connection from `node_1` is in progress and `node_1` is clicked again. -/
theorem connect_self_click_noop_witness :
    handleNodeClick connectingState false "node_1" = connectingState :=
  connect_self_click_noop connectingState false "node_1" rfl rfl rfl

/-- C9: `zoomIn`, `zoomOut` and `handleCanvasWheel` leave the pan offset
unchanged; only `resetZoom` touches pan, setting zoom to 1 and pan to
`(0, 0)`. -/
theorem zoom_ops_preserve_pan (st : MMState) (deltaY : ℚ) :
    (zoomIn st).pan = st.pan ∧ (zoomOut st).pan = st.pan ∧
    (handleCanvasWheel st deltaY).pan = st.pan ∧
    (resetZoom st).zoom = 1 ∧ (resetZoom st).pan = (0, 0) :=
  ⟨rfl, rfl, rfl, rfl, rfl⟩

/-- C10: `moveNode(id, x, y)` with an absent id leaves the whole model
unchanged; with a present id it overwrites only that node's `x` and `y`
(keeping its id, text, color, textColor, shape, size and radius), leaves
every other node unchanged, and leaves the edge set, selection, counters,
zoom, pan and tool unchanged. -/
theorem moveNode_frame (st : MMState) (nodeId : String) (x y : ℚ) :
    (jsGet st.nodes nodeId = none → moveNode st nodeId x y = st) ∧
    (∀ n, jsGet st.nodes nodeId = some n →
      jsGet (moveNode st nodeId x y).nodes nodeId =
        some { n with x := x, y := y } ∧
      (∀ k, k ≠ nodeId →
        jsGet (moveNode st nodeId x y).nodes k = jsGet st.nodes k) ∧
      (moveNode st nodeId x y).connections = st.connections ∧
      (moveNode st nodeId x y).selectedNodes = st.selectedNodes ∧
      (moveNode st nodeId x y).selectedConnections =
        st.selectedConnections ∧
      (moveNode st nodeId x y).nodeCounter = st.nodeCounter ∧
      (moveNode st nodeId x y).connectionCounter = st.connectionCounter ∧
      (moveNode st nodeId x y).zoom = st.zoom ∧
      (moveNode st nodeId x y).pan = st.pan ∧
      (moveNode st nodeId x y).currentTool = st.currentTool) := by
  constructor
  · intro h
    unfold moveNode
    rw [h]
  · intro n h
    have hmove : moveNode st nodeId x y =
        { st with nodes := jsSet st.nodes nodeId { n with x := x, y := y } } := by
      unfold moveNode
      rw [h]
    rw [hmove]
    exact ⟨jsGet_jsSet_self _ _ _,
      fun k hk => jsGet_jsSet_ne _ _ _ _ hk,
      rfl, rfl, rfl, rfl, rfl, rfl, rfl, rfl⟩

/-- C10 (witness): the frame theorem evaluated at `oneNodeState`, both for
the absent id `"missing"` and for the present id `"node_1"` moved to
`(5, 7)`. -/
theorem moveNode_frame_witness :
    moveNode oneNodeState "missing" 5 7 = oneNodeState ∧
    jsGet (moveNode oneNodeState "node_1" 5 7).nodes "node_1" =
      some { id := "node_1", x := 5, y := 7, text := "A",
             color := "#4A90E2", textColor := "#FFFFFF", shape := "circle",
             size := computeNodeSize "A" "circle",
             radius := computeNodeSize "A" "circle" } := by
  constructor
  · exact (moveNode_frame oneNodeState "missing" 5 7).1 (by decide)
  · exact ((moveNode_frame oneNodeState "node_1" 5 7).2
      { id := "node_1", x := 0, y := 0, text := "A", color := "#4A90E2",
        textColor := "#FFFFFF", shape := "circle",
        size := computeNodeSize "A" "circle",
        radius := computeNodeSize "A" "circle" } rfl).1

/-- Helper: `updateNodeBatch` with a chosen shape, written out field by
field. -/
theorem updateNodeBatch_some (newColor newTextColor shape : String)
    (n : Node) :
    updateNodeBatch newColor newTextColor (some shape) n =
      { n with color := newColor, textColor := newTextColor, shape := shape, size := computeNodeSize n.text shape, radius := computeNodeSize n.text shape } := rfl

/-- C8: with two or more nodes selected, `saveMultipleNodeEdit` applies the
chosen fill color, text color and shape to every selected node that exists,
never changes a node's text (the stored node keeps `n.text`), recomputes
each node's size from its own text and the new shape, leaves unselected
nodes untouched and leaves the edge set unchanged. -/
theorem batch_edit_applies_shared_fields (st : MMState)
    (editingNodes : List String) (newColor newTextColor shape : String)
    (nid : String) (n : Node)
    (hlen : 2 ≤ editingNodes.length) (hmem : nid ∈ editingNodes)
    (hget : jsGet st.nodes nid = some n) :
    jsGet (saveMultipleNodeEdit st editingNodes newColor newTextColor
        (some shape)).nodes nid =
      some { n with color := newColor, textColor := newTextColor, shape := shape, size := computeNodeSize n.text shape, radius := computeNodeSize n.text shape } ∧
    (∀ k, k ∉ editingNodes →
      jsGet (saveMultipleNodeEdit st editingNodes newColor newTextColor
        (some shape)).nodes k = jsGet st.nodes k) ∧
    (saveMultipleNodeEdit st editingNodes newColor newTextColor
        (some shape)).connections = st.connections := by
  refine ⟨?_, fun k hk => batchEdit_get_ne _ _ _ _ _ k hk,
    batchEdit_connections _ _ _ _ _⟩
  rw [batchEdit_get_mem newColor newTextColor (some shape) editingNodes st
    nid n hmem hget, updateNodeBatch_some]

/-- C8 (witness): the batch-edit theorem evaluated on the two selected
nodes of `twoNodeConnectedState`, recoloring to `#FF0000` and reshaping to
squares; `node_1` keeps its own text `"A"` and its size is recomputed from
that text. -/
theorem batch_edit_applies_shared_fields_witness :
    jsGet (saveMultipleNodeEdit twoNodeConnectedState ["node_1", "node_2"]
        "#FF0000" "#000000" (some "square")).nodes "node_1" =
      some { id := "node_1", x := 0, y := 0, text := "A",
             color := "#FF0000", textColor := "#000000", shape := "square",
             size := computeNodeSize "A" "square",
             radius := computeNodeSize "A" "square" } ∧
    (∀ k, k ∉ (["node_1", "node_2"] : List String) →
      jsGet (saveMultipleNodeEdit twoNodeConnectedState
        ["node_1", "node_2"] "#FF0000" "#000000"
        (some "square")).nodes k = jsGet twoNodeConnectedState.nodes k) ∧
    (saveMultipleNodeEdit twoNodeConnectedState ["node_1", "node_2"]
        "#FF0000" "#000000" (some "square")).connections =
      twoNodeConnectedState.connections := by
  exact batch_edit_applies_shared_fields twoNodeConnectedState
    ["node_1", "node_2"] "#FF0000" "#000000" "square" "node_1"
    { id := "node_1", x := 0, y := 0, text := "A", color := "#4A90E2",
      textColor := "#FFFFFF", shape := "circle",
      size := computeNodeSize "A" "circle",
      radius := computeNodeSize "A" "circle" }
    (by norm_num) (by decide) rfl

/-- C4 (counterexample): on a text containing a tab, the source splits on
the space character only, giving one 17-character word and size
`max(60, 17*8 + 1*4) * 1.4 = 196`, while the spec's "split on whitespace"
gives two 8-character words and size `max(60, 8*8 + 2*4) * 1.4 = 100.8`;
the two disagree. -/
theorem computeNodeSize_whitespace_split_differs :
    computeNodeSize "aaaaaaaa\tbbbbbbbb" "circle" = 196 ∧
    specNodeSize "aaaaaaaa\tbbbbbbbb" "circle" = 504 / 5 ∧
    (196 : ℚ) ≠ 504 / 5 := by
  refine ⟨?_, ?_, by norm_num⟩
  · have h1 : splitOnSpace "aaaaaaaa\tbbbbbbbb" = ["aaaaaaaa\tbbbbbbbb"] := by
      decide
    have h2 : ("aaaaaaaa\tbbbbbbbb" : String).length = 17 := by decide
    norm_num [computeNodeSize, h1, h2, max_def]
  · have h1 : splitOnWhitespace "aaaaaaaa\tbbbbbbbb" =
        ["aaaaaaaa", "bbbbbbbb"] := by decide
    have h2 : ("aaaaaaaa" : String).length = 8 := by decide
    have h3 : ("bbbbbbbb" : String).length = 8 := by decide
    norm_num [specNodeSize, h1, h2, h3, max_def]

/-- C4 (amended): the size computed at creation is deterministic and equals
`max(60, longestWord*8 + wordCount*4)`, multiplied by 1.4 for circles,
where the words come from splitting the text on the space character (not
on general whitespace); hence the size is at least 60 for every node and
at least 84 for every circle node, and the node stored by `createNode`
carries exactly this size. -/
theorem computeNodeSize_formula_and_bounds (text shape : String) :
    computeNodeSize text shape =
      (if shape = "circle" then (7 : ℚ) / 5 else 1) *
        max 60 ((((((splitOnSpace text).map String.length).foldl max 0 : Nat) : ℚ)) * 8
          + ((splitOnSpace text).length : ℚ) * 4) ∧
    60 ≤ computeNodeSize text shape ∧
    (shape = "circle" → 84 ≤ computeNodeSize text shape) ∧
    (∀ (st : MMState) (x y : ℚ) (color textColor : String),
      (jsGet (createNode st x y text color textColor shape).2.nodes
        (createNode st x y text color textColor shape).1).map Node.size =
      some (computeNodeSize text shape)) := by
  have hbase : (60 : ℚ) ≤
      max 60 ((((((splitOnSpace text).map String.length).foldl max 0 : Nat) : ℚ)) * 8
        + ((splitOnSpace text).length : ℚ) * 4) := le_max_left _ _
  refine ⟨?_, ?_, ?_, ?_⟩
  · simp only [computeNodeSize]
    by_cases hs : shape = "circle"
    · rw [if_pos hs, if_pos hs, mul_comm]
    · rw [if_neg hs, if_neg hs, one_mul]
  · simp only [computeNodeSize]
    by_cases hs : shape = "circle"
    · rw [if_pos hs]
      nlinarith
    · rw [if_neg hs]
      exact hbase
  · intro hs
    simp only [computeNodeSize]
    rw [if_pos hs]
    nlinarith
  · intro st x y color textColor
    show Option.map Node.size
      (jsGet (jsSet st.nodes ("node_" ++ Nat.repr (st.nodeCounter + 1))
        { id := "node_" ++ Nat.repr (st.nodeCounter + 1), x := x, y := y, text := text, color := color, textColor := textColor, shape := shape, size := computeNodeSize text shape, radius := computeNodeSize text shape })
        ("node_" ++ Nat.repr (st.nodeCounter + 1))) =
      some (computeNodeSize text shape)
    rw [jsGet_jsSet_self]
    rfl

/-- C4 (witness): the amended theorem evaluated at the circle node text
`"Hi"`, discharging the circle hypothesis of the 84 lower bound. -/
theorem computeNodeSize_formula_witness :
    84 ≤ computeNodeSize "Hi" "circle" :=
  (computeNodeSize_formula_and_bounds "Hi" "circle").2.2.1 rfl

/-- Helper: the per-line limit for a size-60 circle node is 5 characters
(`fontSize = 16`, `maxWidth = 42`, `floor(42/8) = 5`). -/
theorem maxCharsPerLine_60_circle : maxCharsPerLine 60 "circle" = 5 := by
  simp only [maxCharsPerLine]
  rw [if_neg (by decide : ¬("circle" = "rectangle")),
    if_neg (by decide : ¬("circle" = "square"))]
  rw [show max (10 : ℚ) (min 16 (60 / 3)) = 16 from by
    norm_num [max_def, min_def]]
  rw [show ((60 : ℚ) * (7 / 10)) / (16 * (1 / 2)) = 21 / 4 from by norm_num]
  rw [Int.floor_eq_iff]
  norm_num

/-- C5 (counterexample): on the text `"abcdef "` (trailing space) at size
60 in a circle, the wrapper produces the single line `"abcdef"`; rejoining
the lines with single spaces gives `"abcdef"`, not the original word
sequence `["abcdef", ""]` rejoined as `"abcdef "` — the trailing empty
word (one space character) is dropped. -/
theorem renderWrappedText_drops_trailing_space_word :
    renderWrappedTextLines "abcdef " 60 "circle" = ["abcdef"] ∧
    joinWords (renderWrappedTextLines "abcdef " 60 "circle") ≠
      joinWords (splitOnSpace "abcdef ") := by
  have hlines : renderWrappedTextLines "abcdef " 60 "circle" = ["abcdef"] := by
    unfold renderWrappedTextLines
    rw [maxCharsPerLine_60_circle]
    decide
  refine ⟨hlines, ?_⟩
  rw [hlines]
  decide

/-- C5 (amended): whenever the text's words (split on the space character)
are all non-empty — no leading, trailing or doubled spaces — the wrapper
drops nothing: rejoining the produced lines with single spaces reproduces
the original word sequence rejoined with single spaces, and every word
longer than the per-line limit appears untruncated as a line of its own. -/
theorem renderWrappedText_preserves_words (text : String) (size : ℚ)
    (shape : String) (hwords : ∀ w ∈ splitOnSpace text, w ≠ "") :
    joinWords (renderWrappedTextLines text size shape) =
      joinWords (splitOnSpace text) ∧
    (∀ w ∈ splitOnSpace text,
      maxCharsPerLine size shape < (w.length : ℤ) →
      w ∈ renderWrappedTextLines text size shape) := by
  constructor
  · show joinWords
      (wrapLoop (maxCharsPerLine size shape) (splitOnSpace text) "") = _
    rw [joinWords_wrapLoop _ _ _ hwords, if_pos rfl]
  · intro w hw hlong
    exact wrapLoop_long_word_mem (maxCharsPerLine size shape)
      (splitOnSpace text) "" w hw (hwords w hw) hlong

/-- C5 (witness): the amended theorem evaluated at `"hello world"`, size
60, circle; the hypothesis that all words are non-empty is discharged by
computation. -/
theorem renderWrappedText_preserves_words_witness :
    joinWords (renderWrappedTextLines "hello world" 60 "circle") =
      joinWords (splitOnSpace "hello world") ∧
    (∀ w ∈ splitOnSpace "hello world",
      maxCharsPerLine 60 "circle" < (w.length : ℤ) →
      w ∈ renderWrappedTextLines "hello world" 60 "circle") :=
  renderWrappedText_preserves_words "hello world" 60 "circle" (by decide)

/-- C3: saving under a (trimmed, non-empty) title and loading that same
title reproduces the node set and edge set identically — same entry lists,
id for id and field for field — and restores both counters to their saved
values; since every stored id carries a numeric suffix no greater than its
counter and `Nat.repr` is injective, every id created after the load
(`node_(counter+1)`, `connection_(counter+1)`, and so on upward) differs
from every loaded id. -/
theorem saveMindMap_loadMindMap_roundtrip (st st2 : MMState)
    (rawFileName savedAt : String) (store : List (String × SaveRecord))
    (confirmed : Bool)
    (hname : jsTrim rawFileName ≠ "")
    (hnodes : ∀ p ∈ st.nodes, ∃ j ∈ List.range (st.nodeCounter + 1),
      1 ≤ j ∧ p.1 = "node_" ++ Nat.repr j)
    (hconns : ∀ p ∈ st.connections,
      ∃ j ∈ List.range (st.connectionCounter + 1),
      1 ≤ j ∧ p.1 = "connection_" ++ Nat.repr j) :
    ∃ store1, saveMindMap st rawFileName savedAt store = some store1 ∧
    ∃ st1, loadMindMap (jsTrim rawFileName) store1 st2 confirmed = some st1 ∧
      st1.nodes = st.nodes ∧ st1.connections = st.connections ∧
      st1.nodeCounter = st.nodeCounter ∧
      st1.connectionCounter = st.connectionCounter ∧
      (∀ m, st1.nodeCounter < m → ∀ p ∈ st1.nodes,
        p.1 ≠ "node_" ++ Nat.repr m) ∧
      (∀ m, st1.connectionCounter < m → ∀ p ∈ st1.connections,
        p.1 ≠ "connection_" ++ Nat.repr m) ∧
      (∀ (x y : ℚ) (text color textColor shape : String),
        (createNode st1 x y text color textColor shape).1 =
          "node_" ++ Nat.repr (st.nodeCounter + 1)) ∧
      (∀ s e, (createConnection st1 s e).1 =
          "connection_" ++ Nat.repr (st.connectionCounter + 1)) := by
  refine ⟨jsSet store (jsTrim rawFileName)
    { title := jsTrim rawFileName, nodes := st.nodes,
      connections := st.connections, nodeCounter := st.nodeCounter,
      connectionCounter := st.connectionCounter, savedAt := savedAt },
    ?_, ?_⟩
  · simp only [saveMindMap]
    rw [if_neg hname]
  · refine ⟨{ clearAll st2 confirmed with nodes := st.nodes, connections := st.connections, nodeCounter := st.nodeCounter, connectionCounter := st.connectionCounter }, ?_, rfl, rfl, rfl, rfl, ?_, ?_, fun _ _ _ _ _ _ => rfl, fun _ _ => rfl⟩
    · simp only [loadMindMap]
      rw [jsGet_jsSet_self]
    · intro m hm p hp habs
      have hm2 : st.nodeCounter < m := hm
      obtain ⟨j, hjmem, hj1, heq⟩ := hnodes p hp
      have hjlt : j < st.nodeCounter + 1 := List.mem_range.mp hjmem
      have : j = m := tagged_id_injective "node_" j m (heq ▸ habs)
      omega
    · intro m hm p hp habs
      have hm2 : st.connectionCounter < m := hm
      obtain ⟨j, hjmem, hj1, heq⟩ := hconns p hp
      have hjlt : j < st.connectionCounter + 1 := List.mem_range.mp hjmem
      have : j = m := tagged_id_injective "connection_" j m (heq ▸ habs)
      omega

/-- C3 (witness): the round-trip theorem evaluated by saving the concrete
two-node, one-edge document under the title `"demo"` into an empty store
and loading it back. -/
theorem saveMindMap_loadMindMap_roundtrip_witness :
    ∃ store1, saveMindMap twoNodeConnectedState "demo" "2026-10-11" [] =
      some store1 ∧
    ∃ st1, loadMindMap (jsTrim "demo") store1 initialState true = some st1 ∧
      st1.nodes = twoNodeConnectedState.nodes ∧
      st1.connections = twoNodeConnectedState.connections ∧
      st1.nodeCounter = twoNodeConnectedState.nodeCounter ∧
      st1.connectionCounter = twoNodeConnectedState.connectionCounter ∧
      (∀ m, st1.nodeCounter < m → ∀ p ∈ st1.nodes,
        p.1 ≠ "node_" ++ Nat.repr m) ∧
      (∀ m, st1.connectionCounter < m → ∀ p ∈ st1.connections,
        p.1 ≠ "connection_" ++ Nat.repr m) ∧
      (∀ (x y : ℚ) (text color textColor shape : String),
        (createNode st1 x y text color textColor shape).1 =
          "node_" ++ Nat.repr (twoNodeConnectedState.nodeCounter + 1)) ∧
      (∀ s e, (createConnection st1 s e).1 =
          "connection_" ++
            Nat.repr (twoNodeConnectedState.connectionCounter + 1)) := by
  have h := saveMindMap_loadMindMap_roundtrip twoNodeConnectedState
    initialState "demo" "2026-10-11" [] true (by decide) (by decide)
    (by decide)
  exact h
